import Mathlib

/-!
Shallow embedding of the reservation lifecycle core of the tfexplorer
repository, together with proofs about the claims of its specification.

The data model and the operations are translated from the Go source:
  * `pkg/workloads/types/pipeline.go` (the `Pipeline` state machine),
  * `pkg/workloads/reservation.go` (the reservation API handlers),
  * `client/directory.go` (`UserCreate`),
  * the directory node API (`hashProof`, `StoreProof`).
Machine integers (`int64`) are modelled as `Int`; time instants as `Int`
(the pipeline receives the clock value `now` as an explicit argument,
standing for the `time.Now()` calls of the source).  Fallible code and
runtime panics are modelled with `Option`.
-/

/-- The `NextAction` lifecycle enum of generated workloads models. -/
inductive NextAction where
  | create
  | sign
  | pay
  | deploy
  | delete
  | deleted
  | invalid
deriving DecidableEq, Repr

/-- The `ResultStateEnum` of generated workloads models. -/
inductive ResultState where
  | ok
  | error
  | deleted
deriving DecidableEq, Repr

/-- A `SigningSignature`; only the threebot id `Tid` is read by the
pipeline, the signature bytes and epoch are never inspected by the code
embedded here. -/
structure SigningSignature where
  tid : Int
deriving DecidableEq, Repr

/-- A `SigningRequest`: the declared signers and the minimum quorum. -/
structure SigningRequest where
  signers : List Int
  quorumMin : Int
deriving DecidableEq, Repr

/-- A workload `Result` as stored in a reservation's results list; fields
not read by the embedded handlers are omitted. -/
structure Result where
  workloadId : String
  nodeId : String
  state : ResultState
deriving DecidableEq, Repr

/-- One workload unit of a reservation, projected to the two fields the
embedded handlers read: its global workload id `<rid>-<idx>` and the node
it is addressed to. -/
structure Workload where
  workloadId : String
  nodeId : String
deriving DecidableEq, Repr

/-- The immutable `DataReservation` payload (fields read by the embedded
code).  Expirations are absolute instants. -/
structure DataReservation where
  expirationProvisioning : Int
  expirationReservation : Int
  currencies : List String
  signingRequestProvision : SigningRequest
  signingRequestDelete : SigningRequest
deriving DecidableEq, Repr

/-- A reservation document.  `workloads` is the flattening of the typed
workload lists of `data_reservation` (containers, volumes, zdbs, ...);
the embedded code only ever consumes that flattened form through
`Reservation.Workloads`. -/
structure Reservation where
  id : Int
  nextAction : NextAction
  dataReservation : DataReservation
  signaturesProvision : List SigningSignature
  signaturesDelete : List SigningSignature
  results : List Result
  workloads : List Workload
deriving DecidableEq, Repr

/-- The `in` closure of `pipeline.go`: membership of a tid in a signers
list. -/
def inList (i : Int) : List Int → Bool
  | [] => false
  | x :: rest => if x == i then true else inList i rest

/-- The signature-counting loop shared by both quorum checks of
`pipeline.go`: count the signatures whose tid is in the signers list. -/
def countSignatures (signers : List Int) : List SigningSignature → Int
  | [] => 0
  | s :: rest =>
    if !(inList s.tid signers) then countSignatures signers rest
    else countSignatures signers rest + 1

/-- `Pipeline.checkProvisionSignatures` of `pipeline.go`: a zero minimum
quorum is trivially satisfied, otherwise at least `quorumMin` signatures
from declared signers are required. -/
def checkProvisionSignatures (r : Reservation) : Bool :=
  let request := r.dataReservation.signingRequestProvision
  if request.quorumMin == 0 then true
  else countSignatures request.signers r.signaturesProvision ≥ request.quorumMin

/-- `Pipeline.checkDeleteSignatures` of `pipeline.go`: with a zero minimum
quorum there is no way to trigger deletion, otherwise at least `quorumMin`
signatures from declared signers are required. -/
def checkDeleteSignatures (r : Reservation) : Bool :=
  let request := r.dataReservation.signingRequestDelete
  if request.quorumMin == 0 then false
  else countSignatures request.signers r.signaturesDelete ≥ request.quorumMin

/-- Modelled from the spec: `Reservation.Expired` is not under `src/`;
§4.2 step 2 reads "If `now ≥ expiration_reservation` OR delete-quorum
satisfied: set `Delete`". -/
def Reservation.Expired (r : Reservation) (now : Int) : Bool :=
  r.dataReservation.expirationReservation ≤ now

/-- Modelled from the spec: `Reservation.IsSuccessfullyDeployed` is not
under `src/`; §4.2 reads "**Successfully deployed** ≡ for every workload
in the reservation there exists a result with `state = OK` and matching
`workload_id`". -/
def Reservation.IsSuccessfullyDeployed (r : Reservation) : Bool :=
  r.workloads.all fun w =>
    r.results.any fun res => res.workloadId == w.workloadId && res.state == ResultState.ok

/-- Modelled from the spec: `Reservation.Workloads(nodeID)` is not under
`src/`; per §4.3/§4.4 it lists the reservation's per-node workloads, and
the callers in `reservation.go` use an empty node id to mean all
workloads of the reservation. -/
def Reservation.Workloads (r : Reservation) (nodeID : String) : List Workload :=
  r.workloads.filter fun w => nodeID == "" || w.nodeId == nodeID

/-- One execution of the `switch` statement in the stage loop of
`Pipeline.Next`: `Create` advances to `Sign`, `Sign` advances to `Pay`
when the provision quorum is reached, every other stage is left alone. -/
def stageStep (r : Reservation) : Reservation :=
  match r.nextAction with
  | NextAction.create => { r with nextAction := NextAction.sign }
  | NextAction.sign =>
    if checkProvisionSignatures r then { r with nextAction := NextAction.pay } else r
  | _ => r

/-- Rank used to show the stage loop terminates: the switch only ever
moves `create ↦ sign ↦ pay`. -/
def stageRank : NextAction → Nat
  | NextAction.create => 2
  | NextAction.sign => 1
  | _ => 0

/-- When the stage switch changes the action, its rank strictly
decreases, so the stage loop terminates. -/
theorem stageStep_rank_lt (r : Reservation) (h : ¬(stageStep r).nextAction = r.nextAction) :
    stageRank (stageStep r).nextAction < stageRank r.nextAction := by
  cases hna : r.nextAction with
  | create => simp [stageStep, hna, stageRank]
  | sign =>
    by_cases hq : checkProvisionSignatures r
    · simp [stageStep, hna, hq, stageRank]
    · exact absurd (by simp [stageStep, hna, hq]) h
  | pay => exact absurd (by simp [stageStep, hna]) h
  | deploy => exact absurd (by simp [stageStep, hna]) h
  | delete => exact absurd (by simp [stageStep, hna]) h
  | deleted => exact absurd (by simp [stageStep, hna]) h
  | invalid => exact absurd (by simp [stageStep, hna]) h

/-- The `for { switch ... }` loop of `Pipeline.Next`: iterate the stage
switch until the action stops changing; `modified` records whether any
iteration changed it.  In the source, `current` always holds the action
from before the switch, so comparing against `r.nextAction` is the exact
loop condition. -/
def stageLoop (r : Reservation) (modified : Bool) : Reservation × Bool :=
  let r' := stageStep r
  if r'.nextAction = r.nextAction then (r', modified)
  else stageLoop r' true
termination_by stageRank r.nextAction
decreasing_by exact stageStep_rank_lt r (by assumption)

/-- `Pipeline.Next` of `pipeline.go`: returns the new reservation and
whether it changed.  `now` stands for the value of `time.Now()` during
the call. -/
def pipelineNext (r : Reservation) (now : Int) : Reservation × Bool :=
  if r.nextAction = NextAction.delete ∨ r.nextAction = NextAction.deleted then (r, false)
  else if r.Expired now || checkDeleteSignatures r then
    ({ r with nextAction := NextAction.delete }, true)
  else if r.dataReservation.expirationProvisioning < now && !r.IsSuccessfullyDeployed then
    ({ r with nextAction := NextAction.delete }, true)
  else
    stageLoop r false

/-!  Basic facts about the stage loop of `Pipeline.Next`. -/

/-- If the stage switch leaves `nextAction` unchanged, it leaves the whole
reservation unchanged. -/
theorem stageStep_fix_of_nextAction (r : Reservation)
    (h : (stageStep r).nextAction = r.nextAction) : stageStep r = r := by
  cases hna : r.nextAction with
  | create => simp [stageStep, hna] at h
  | sign =>
    by_cases hq : checkProvisionSignatures r
    · simp [stageStep, hna, hq] at h
    · simp [stageStep, hna, hq]
  | pay => simp [stageStep, hna]
  | deploy => simp [stageStep, hna]
  | delete => simp [stageStep, hna]
  | deleted => simp [stageStep, hna]
  | invalid => simp [stageStep, hna]

/-- The stage switch only ever produces the old action, `Sign` or `Pay`. -/
theorem stageStep_action_cases (r : Reservation) :
    (stageStep r).nextAction = r.nextAction ∨ (stageStep r).nextAction = NextAction.sign ∨
      (stageStep r).nextAction = NextAction.pay := by
  by_cases hq : checkProvisionSignatures r <;> cases hna : r.nextAction <;>
    simp [stageStep, hna, hq]

/-- The stage switch only changes the `nextAction` field. -/
theorem stageStep_fields (r : Reservation) :
    (stageStep r).id = r.id ∧ (stageStep r).dataReservation = r.dataReservation ∧
      (stageStep r).signaturesProvision = r.signaturesProvision ∧
      (stageStep r).signaturesDelete = r.signaturesDelete ∧
      (stageStep r).results = r.results ∧ (stageStep r).workloads = r.workloads := by
  by_cases hq : checkProvisionSignatures r <;> cases hna : r.nextAction <;>
    simp [stageStep, hna, hq]

/-- The reservation returned by the stage loop is a fixed point of the
stage switch. -/
theorem stageLoop_fix (r : Reservation) (m : Bool) :
    stageStep (stageLoop r m).1 = (stageLoop r m).1 := by
  induction r, m using stageLoop.induct with
  | case1 r m r' hif =>
    have hr : stageStep r = r := stageStep_fix_of_nextAction r hif
    rw [stageLoop]
    simp [hif, hr]
  | case2 r m r' hif ih =>
    rw [stageLoop]
    simp only [if_neg hif]
    exact ih

/-- The stage loop only changes the `nextAction` field. -/
theorem stageLoop_fields (r : Reservation) (m : Bool) :
    (stageLoop r m).1.id = r.id ∧ (stageLoop r m).1.dataReservation = r.dataReservation ∧
      (stageLoop r m).1.signaturesProvision = r.signaturesProvision ∧
      (stageLoop r m).1.signaturesDelete = r.signaturesDelete ∧
      (stageLoop r m).1.results = r.results ∧ (stageLoop r m).1.workloads = r.workloads := by
  induction r, m using stageLoop.induct with
  | case1 r m r' hif =>
    rw [stageLoop]
    simp only [if_pos hif]
    exact stageStep_fields r
  | case2 r m r' hif ih =>
    rw [stageLoop]
    simp only [if_neg hif]
    obtain ⟨a1, a2, a3, a4, a5, a6⟩ := ih
    obtain ⟨b1, b2, b3, b4, b5, b6⟩ := stageStep_fields r
    exact ⟨a1.trans b1, a2.trans b2, a3.trans b3, a4.trans b4, a5.trans b5, a6.trans b6⟩

/-- The action returned by the stage loop is the old action, `Sign` or
`Pay`; in particular the stage loop never produces `Delete` or `Deleted`
out of another state. -/
theorem stageLoop_action_cases (r : Reservation) (m : Bool) :
    (stageLoop r m).1.nextAction = r.nextAction ∨
      (stageLoop r m).1.nextAction = NextAction.sign ∨
      (stageLoop r m).1.nextAction = NextAction.pay := by
  induction r, m using stageLoop.induct with
  | case1 r m r' hif =>
    rw [stageLoop]
    simp only [if_pos hif]
    exact stageStep_action_cases r
  | case2 r m r' hif ih =>
    rw [stageLoop]
    simp only [if_neg hif]
    rcases ih with h | h | h
    · rw [h]
      exact stageStep_action_cases r
    · exact Or.inr (Or.inl h)
    · exact Or.inr (Or.inr h)

/-!  The quorum rule, stated the way the specification words it. -/

/-- The quorum rule of the spec: at least `quorum_min` signatures in the
list bear a tid belonging to the declared signers set; signatures with
unknown tid do not count. -/
def quorumRule (sigs : List SigningSignature) (request : SigningRequest) : Prop :=
  request.quorumMin ≤ ((sigs.filter fun s => inList s.tid request.signers).length : Int)

instance (sigs : List SigningSignature) (request : SigningRequest) :
    Decidable (quorumRule sigs request) := by
  unfold quorumRule
  infer_instance

/-- The counting loop of `pipeline.go` counts exactly the signatures
whose tid is among the declared signers. -/
theorem countSignatures_eq_filter_length (signers : List Int) (sigs : List SigningSignature) :
    countSignatures signers sigs =
      ((sigs.filter fun s => inList s.tid signers).length : Int) := by
  induction sigs with
  | nil => rfl
  | cons s rest ih =>
    by_cases hs : inList s.tid signers
    · simp [countSignatures, List.filter, hs, ih]
    · simp [countSignatures, List.filter, hs, ih]

/-- `checkProvisionSignatures` decides exactly the quorum rule on the
provision signatures (a zero minimum quorum is trivially reached). -/
theorem checkProvisionSignatures_iff (r : Reservation) :
    checkProvisionSignatures r = true ↔
      quorumRule r.signaturesProvision r.dataReservation.signingRequestProvision := by
  unfold checkProvisionSignatures quorumRule
  by_cases h0 : r.dataReservation.signingRequestProvision.quorumMin = 0
  · simp [h0]
  · simp [h0, countSignatures_eq_filter_length]

/-!  Claim C2: the pipeline is a no-op on `Delete` and `Deleted`. -/

/-- C2: for every reservation whose `next_action` is `Delete` or
`Deleted`, one Pipeline pass returns it unchanged and reports
`changed = false`, whatever the clock, the signature lists or the
results. -/
theorem c2_pipeline_noop_on_delete (r : Reservation) (now : Int)
    (h : r.nextAction = NextAction.delete ∨ r.nextAction = NextAction.deleted) :
    pipelineNext r now = (r, false) := by
  simp [pipelineNext, h]

/-- A sample reservation used to instantiate the claims at concrete
inputs. -/
def baseReservation : Reservation :=
  { id := 1
  , nextAction := NextAction.sign
  , dataReservation :=
    { expirationProvisioning := 100
    , expirationReservation := 100
    , currencies := ["TFT"]
    , signingRequestProvision := { signers := [42], quorumMin := 1 }
    , signingRequestDelete := { signers := [42], quorumMin := 1 } }
  , signaturesProvision := []
  , signaturesDelete := []
  , results := []
  , workloads := [{ workloadId := "1-1", nodeId := "node1" }] }

/-- Witness for C2 at a concrete reservation in state `Delete`. -/
theorem c2_pipeline_noop_on_delete_witness :
    ({ baseReservation with nextAction := NextAction.delete }.nextAction = NextAction.delete ∨
      { baseReservation with nextAction := NextAction.delete }.nextAction = NextAction.deleted) ∧
      pipelineNext { baseReservation with nextAction := NextAction.delete } 0 =
        ({ baseReservation with nextAction := NextAction.delete }, false) :=
  ⟨Or.inl rfl,
    c2_pipeline_noop_on_delete { baseReservation with nextAction := NextAction.delete } 0
      (Or.inl rfl)⟩

/-!  Claim C5: past `expiration_reservation` the pipeline deletes. -/

/-- C5: for every reservation not already in `Delete`/`Deleted`, when the
clock is past `expiration_reservation` one Pipeline pass sets
`next_action = Delete` and reports `changed = true`. -/
theorem c5_expired_pipeline_deletes (r : Reservation) (now : Int)
    (h1 : ¬(r.nextAction = NextAction.delete ∨ r.nextAction = NextAction.deleted))
    (h2 : r.dataReservation.expirationReservation < now) :
    pipelineNext r now = ({ r with nextAction := NextAction.delete }, true) := by
  have hexp : r.Expired now = true := by
    simp only [Reservation.Expired, decide_eq_true_eq]
    exact le_of_lt h2
  simp [pipelineNext, h1, hexp]

/-- Witness for C5 at a concrete expired reservation. -/
theorem c5_expired_pipeline_deletes_witness :
    ¬(baseReservation.nextAction = NextAction.delete ∨
        baseReservation.nextAction = NextAction.deleted) ∧
      baseReservation.dataReservation.expirationReservation < 101 ∧
      pipelineNext baseReservation 101 =
        ({ baseReservation with nextAction := NextAction.delete }, true) :=
  ⟨by decide, by decide, c5_expired_pipeline_deletes baseReservation 101 (by decide) (by decide)⟩

/-!  Claim C1: `Sign → Pay` under the quorum rule. -/

/-- C1 (amended): for a reservation in `Sign` that is not expired, has no
satisfied delete quorum and has not passed its provisioning deadline
without being fully deployed, one Pipeline pass sets `next_action = Pay`
exactly when the provision quorum rule holds. -/
theorem c1_sign_quorum_iff_pay (r : Reservation) (now : Int)
    (hna : r.nextAction = NextAction.sign)
    (hexp : r.Expired now = false)
    (hdel : checkDeleteSignatures r = false)
    (hprovExp : r.dataReservation.expirationProvisioning < now →
      r.IsSuccessfullyDeployed = true) :
    ((pipelineNext r now).1.nextAction = NextAction.pay ↔
      quorumRule r.signaturesProvision r.dataReservation.signingRequestProvision) := by
  have h1 : ¬(r.nextAction = NextAction.delete ∨ r.nextAction = NextAction.deleted) := by
    simp [hna]
  have h3 : (decide (r.dataReservation.expirationProvisioning < now) &&
      !r.IsSuccessfullyDeployed) = false := by
    by_cases hp : r.dataReservation.expirationProvisioning < now
    · simp [hp, hprovExp hp]
    · simp [hp]
  have e1 : pipelineNext r now = stageLoop r false := by
    simp [pipelineNext, h1, hexp, hdel, h3]
  rw [e1]
  by_cases hq : checkProvisionSignatures r
  · have hss : stageStep r = { r with nextAction := NextAction.pay } := by
      simp [stageStep, hna, hq]
    have hss2 : stageStep { r with nextAction := NextAction.pay } =
        { r with nextAction := NextAction.pay } := by
      simp [stageStep]
    have e2 : stageLoop r false = ({ r with nextAction := NextAction.pay }, true) := by
      rw [stageLoop]
      simp only [hss, hna]
      rw [if_neg (by simp)]
      rw [stageLoop]
      simp [hss2]
    rw [e2]
    simpa using (checkProvisionSignatures_iff r).mp hq
  · have hss : stageStep r = r := by
      simp [stageStep, hna, hq]
    have e2 : stageLoop r false = (r, false) := by
      rw [stageLoop]
      simp [hss]
    rw [e2]
    simp only [hna]
    constructor
    · intro hc
      exact absurd hc (by simp)
    · intro hqr
      exact absurd ((checkProvisionSignatures_iff r).mpr hqr) hq

/-- The same reservation with the provision quorum already reached. -/
def signedReservation : Reservation :=
  { baseReservation with signaturesProvision := [{ tid := 42 }] }

/-- Witness for C1 (amended) at a concrete signed reservation. -/
theorem c1_sign_quorum_iff_pay_witness :
    signedReservation.nextAction = NextAction.sign ∧
      signedReservation.Expired 0 = false ∧
      checkDeleteSignatures signedReservation = false ∧
      ((pipelineNext signedReservation 0).1.nextAction = NextAction.pay ↔
        quorumRule signedReservation.signaturesProvision
          signedReservation.dataReservation.signingRequestProvision) :=
  ⟨rfl, by decide, by decide,
    c1_sign_quorum_iff_pay signedReservation 0 rfl (by decide) (by decide)
      (fun hp => absurd hp (by decide))⟩

/-- A reservation in `Sign` whose provision quorum is reached but whose
`expiration_reservation` has already passed. -/
def expiredSignedReservation : Reservation :=
  { baseReservation with
      signaturesProvision := [{ tid := 42 }]
      dataReservation := { baseReservation.dataReservation with expirationReservation := 0 } }

/-- Counterexample to C1 as stated: this reservation is in `Sign` and its
provision quorum rule holds, yet one Pipeline pass (at `now = 1`, past
`expiration_reservation = 0`) does not set `next_action = Pay` — it sets
`Delete`. -/
theorem c1_counterexample :
    expiredSignedReservation.nextAction = NextAction.sign ∧
      quorumRule expiredSignedReservation.signaturesProvision
        expiredSignedReservation.dataReservation.signingRequestProvision ∧
      ¬(pipelineNext expiredSignedReservation 1).1.nextAction = NextAction.pay := by
  refine ⟨rfl, by decide, ?_⟩
  decide

/-!  Claim C6: zero minimum quorums. -/

/-- C6: a zero delete `quorum_min` means signatures can never trigger
deletion — whatever delete signatures are present, a reservation not in
`Delete`/`Deleted` and not expired (reservation or provisioning
deadline) never moves to `Delete` — while a zero provision `quorum_min`
makes the provision quorum trivially satisfied. -/
theorem c6_zero_quorum_min (r : Reservation) (now : Int) :
    (r.dataReservation.signingRequestDelete.quorumMin = 0 →
        checkDeleteSignatures r = false) ∧
      (r.dataReservation.signingRequestProvision.quorumMin = 0 →
        checkProvisionSignatures r = true) ∧
      (r.dataReservation.signingRequestDelete.quorumMin = 0 →
        ¬(r.nextAction = NextAction.delete ∨ r.nextAction = NextAction.deleted) →
        r.Expired now = false →
        (decide (r.dataReservation.expirationProvisioning < now) &&
            !r.IsSuccessfullyDeployed) = false →
        ¬(pipelineNext r now).1.nextAction = NextAction.delete) := by
  refine ⟨?_, ?_, ?_⟩
  · intro h0
    simp [checkDeleteSignatures, h0]
  · intro h0
    simp [checkProvisionSignatures, h0]
  · intro h0 h1 h2 h3 hc
    have hdel : checkDeleteSignatures r = false := by simp [checkDeleteSignatures, h0]
    have e1 : pipelineNext r now = stageLoop r false := by
      simp [pipelineNext, h1, h2, hdel, h3]
    rw [e1] at hc
    rcases stageLoop_action_cases r false with h | h | h
    · exact h1 (Or.inl (h.symm.trans hc))
    · exact absurd (h.symm.trans hc) (by simp)
    · exact absurd (h.symm.trans hc) (by simp)

/-- A reservation whose two signing requests both have `quorum_min = 0`,
with delete signatures from a declared signer and from a stranger. -/
def zeroQuorumReservation : Reservation :=
  { baseReservation with
      dataReservation := { baseReservation.dataReservation with
        signingRequestProvision := { signers := [42], quorumMin := 0 }
        signingRequestDelete := { signers := [42], quorumMin := 0 } }
      signaturesDelete := [{ tid := 42 }, { tid := 7 }] }

/-- Witness for C6 at a concrete reservation with zero-minimum quorums
and non-empty delete signatures. -/
theorem c6_zero_quorum_min_witness :
    checkDeleteSignatures zeroQuorumReservation = false ∧
      checkProvisionSignatures zeroQuorumReservation = true ∧
      ¬(pipelineNext zeroQuorumReservation 0).1.nextAction = NextAction.delete :=
  ⟨(c6_zero_quorum_min zeroQuorumReservation 0).1 rfl,
    (c6_zero_quorum_min zeroQuorumReservation 0).2.1 rfl,
    (c6_zero_quorum_min zeroQuorumReservation 0).2.2 rfl (by decide) (by decide) (by decide)⟩

/-!  Claim C7: idempotence of the pipeline at a fixed clock. -/

/-- C7: applying the pipeline twice at the same clock value returns the
first output unchanged, with `changed = false` on the second pass. -/
theorem c7_pipeline_idempotent (r : Reservation) (now : Int) :
    pipelineNext (pipelineNext r now).1 now = ((pipelineNext r now).1, false) := by
  by_cases h1 : r.nextAction = NextAction.delete ∨ r.nextAction = NextAction.deleted
  · have e1 : pipelineNext r now = (r, false) := by simp [pipelineNext, h1]
    rw [e1]
    exact e1
  · by_cases h2 : (r.Expired now || checkDeleteSignatures r) = true
    · have e1 : pipelineNext r now = ({ r with nextAction := NextAction.delete }, true) := by
        simp [pipelineNext, h1, h2]
      rw [e1]
      simp [pipelineNext]
    · by_cases h3 : (decide (r.dataReservation.expirationProvisioning < now) &&
          !r.IsSuccessfullyDeployed) = true
      · have e1 : pipelineNext r now = ({ r with nextAction := NextAction.delete }, true) := by
          simp [pipelineNext, h1, h2, h3]
        rw [e1]
        simp [pipelineNext]
      · have e1 : pipelineNext r now = stageLoop r false := by
          simp [pipelineNext, h1, h2, h3]
        obtain ⟨f1, f2, f3, f4, f5, f6⟩ := stageLoop_fields r false
        have hna1 : ¬((stageLoop r false).1.nextAction = NextAction.delete ∨
            (stageLoop r false).1.nextAction = NextAction.deleted) := by
          rcases stageLoop_action_cases r false with h | h | h
          · rw [h]
            exact h1
          · rw [h]
            simp
          · rw [h]
            simp
        have hexp1 : (stageLoop r false).1.Expired now = r.Expired now := by
          simp [Reservation.Expired, f2]
        have hdel1 : checkDeleteSignatures (stageLoop r false).1 = checkDeleteSignatures r := by
          simp [checkDeleteSignatures, f2, f4]
        have hsucc1 : (stageLoop r false).1.IsSuccessfullyDeployed =
            r.IsSuccessfullyDeployed := by
          simp [Reservation.IsSuccessfullyDeployed, f5, f6]
        have hfix := stageLoop_fix r false
        have e2 : stageLoop (stageLoop r false).1 false = ((stageLoop r false).1, false) := by
          rw [stageLoop]
          simp [hfix]
        rw [e1]
        simp [pipelineNext, hna1, hexp1, hdel1, hsucc1, f2, h2, h3, e2]

/-!  Claim C8: `API.workloadGet` of `reservation.go`. -/

/-- The workload lookup loop of the handlers in `reservation.go`: scan
the listed workloads and stop at the first one carrying the requested
global workload id. -/
def workloadFind (gwid : String) : List Workload → Option Workload
  | [] => none
  | wl :: rest => if wl.workloadId == gwid then some wl else workloadFind gwid rest

/-- The result-collecting loop of `API.workloadGet`: it appends the first
result whose `workload_id` matches and then breaks out of the loop. -/
def resultOfLoop (wid : String) : List Result → List Result
  | [] => []
  | rs :: rest => if rs.workloadId == wid then [rs] else resultOfLoop wid rest

/-- `API.workloadGet` of `reservation.go`, given the reservation the
store returned for the id prefix of `gwid`: run the pipeline, list all
workloads (empty node id), find the requested one, and collect its
results with the break-at-first-match loop.  `none` is the NotFound
reply. -/
def workloadGet (r : Reservation) (gwid : String) (now : Int) :
    Option (Workload × List Result) :=
  match workloadFind gwid ((pipelineNext r now).1.Workloads "") with
  | none => none
  | some workload =>
    some (workload, resultOfLoop workload.workloadId (pipelineNext r now).1.results)

/-- The break-at-first-match loop returns exactly the first matching
result, if any. -/
theorem resultOfLoop_eq_find (wid : String) (results : List Result) :
    resultOfLoop wid results = (results.find? fun rs => rs.workloadId == wid).toList := by
  induction results with
  | nil => rfl
  | cons rs rest ih =>
    by_cases h : rs.workloadId == wid
    · simp [resultOfLoop, List.find?, h]
    · simp only [resultOfLoop, List.find?]
      rw [if_neg (by simpa using h)]
      rw [ih]
      have hb : (rs.workloadId == wid) = false := by simpa using h
      rw [hb]

/-- C8 (amended): a successful `GetWorkload(gwid)` returns the workload
definition together with at most the first result of the parent
reservation whose `workload_id` matches — not the full list. -/
theorem c8_workload_first_result (r : Reservation) (gwid : String) (now : Int)
    (p : Workload × List Result) (h : workloadGet r gwid now = some p) :
    p.2 = ((pipelineNext r now).1.results.find? fun rs =>
      rs.workloadId == p.1.workloadId).toList := by
  unfold workloadGet at h
  cases hf : workloadFind gwid ((pipelineNext r now).1.Workloads "") with
  | none => rw [hf] at h; exact absurd h (by simp)
  | some workload =>
    rw [hf] at h
    simp only [Option.some.injEq] at h
    rw [← h]
    exact resultOfLoop_eq_find workload.workloadId (pipelineNext r now).1.results

/-- A result in state `OK` for workload `1-1`. -/
def resultOK1 : Result := { workloadId := "1-1", nodeId := "node1", state := ResultState.ok }

/-- A second stored result for the same workload `1-1`. -/
def resultDeleted1 : Result :=
  { workloadId := "1-1", nodeId := "node1", state := ResultState.deleted }

/-- A deployed reservation whose results list carries two entries for the
same workload id `1-1`. -/
def deployedReservation : Reservation :=
  { baseReservation with
      nextAction := NextAction.deploy
      results := [resultOK1, resultDeleted1] }

/-- The pipeline leaves `deployedReservation` alone at clock 0. -/
theorem pipelineNext_deployedReservation :
    pipelineNext deployedReservation 0 = (deployedReservation, false) := by
  have hss : stageStep deployedReservation = deployedReservation := rfl
  have e3 : stageLoop deployedReservation false = (deployedReservation, false) := by
    rw [stageLoop]
    simp [hss]
  rw [pipelineNext]
  rw [if_neg (by decide), if_neg (by decide), if_neg (by decide)]
  exact e3

/-- Counterexample to C8 as stated: the stored results list holds two
results for workload `1-1`, but `GetWorkload` replies with only the
first of them. -/
theorem c8_counterexample :
    deployedReservation.results.filter (fun rs => rs.workloadId == "1-1") =
        [resultOK1, resultDeleted1] ∧
      workloadGet deployedReservation "1-1" 0 =
        some ({ workloadId := "1-1", nodeId := "node1" }, [resultOK1]) := by
  constructor
  · decide
  · simp [workloadGet, pipelineNext_deployedReservation]
    decide

/-- Witness for C8 (amended) at the two-result reservation. -/
theorem c8_workload_first_result_witness :
    workloadGet deployedReservation "1-1" 0 =
        some ({ workloadId := "1-1", nodeId := "node1" }, [resultOK1]) ∧
      ([resultOK1] : List Result) =
        ((pipelineNext deployedReservation 0).1.results.find? fun rs =>
          rs.workloadId == ({ workloadId := "1-1", nodeId := "node1" } : Workload).workloadId).toList := by
  have hw : workloadGet deployedReservation "1-1" 0 =
      some ({ workloadId := "1-1", nodeId := "node1" }, [resultOK1]) := by
    simp [workloadGet, pipelineNext_deployedReservation]
    decide
  exact ⟨hw, c8_workload_first_result deployedReservation "1-1" 0
    ({ workloadId := "1-1", nodeId := "node1" }, [resultOK1]) hw⟩

/-!  Claim C3: `API.workloads` of `reservation.go` (node poll). -/

/-- The `maxPageSize` constant of `API.workloads`. -/
def maxPageSize : Nat := 200

/-- `API.queued` of `reservation.go`: the queue query for the node runs
with `SetLimit(limit)`, so it yields at most `limit` of the node's queue
rows, in order. -/
def queued (queue : List Workload) (limit : Nat) : List Workload :=
  queue.take limit

/-- The reservation scan loop of `API.workloads`: run each reservation
through the pipeline, keep only those in `Deploy` or `Delete`, append
their per-node workloads, and break once the accumulated list reaches
`maxPageSize`. -/
def scanReservations (now : Int) (nodeID : String) (workloads : List Workload) :
    List Reservation → List Workload
  | [] => workloads
  | r :: rest =>
    let reservation := (pipelineNext r now).1
    if ¬(reservation.nextAction = NextAction.deploy ∨
        reservation.nextAction = NextAction.delete) then
      scanReservations now nodeID workloads rest
    else
      let workloads' := workloads ++ reservation.Workloads nodeID
      if workloads'.length ≥ maxPageSize then workloads'
      else scanReservations now nodeID workloads' rest

/-- `API.workloads` of `reservation.go`: assemble the node's queue rows
(up to `maxPageSize`), return early only when they exceed `maxPageSize`,
otherwise scan the reservations matching the node. -/
def workloadsHandler (now : Int) (nodeID : String) (queue : List Workload)
    (reservations : List Reservation) : List Workload :=
  let workloads := queued queue maxPageSize
  if workloads.length > maxPageSize then workloads
  else scanReservations now nodeID workloads reservations

/-- Length bound of the scan loop: starting from at most `maxPageSize`
accumulated rows, the result stays below `maxPageSize` plus one
reservation's worth of per-node workloads. -/
theorem scanReservations_length_le (now : Int) (nodeID : String) (M : Nat)
    (reservations : List Reservation) :
    ∀ workloads : List Workload, workloads.length ≤ maxPageSize →
      (∀ r ∈ reservations, ((pipelineNext r now).1.Workloads nodeID).length ≤ M) →
      (scanReservations now nodeID workloads reservations).length ≤ maxPageSize + M := by
  induction reservations with
  | nil =>
    intro workloads hw _
    simpa [scanReservations] using le_trans hw (Nat.le_add_right _ _)
  | cons r rest ih =>
    intro workloads hw hM
    rw [scanReservations]
    by_cases hna : (pipelineNext r now).1.nextAction = NextAction.deploy ∨
        (pipelineNext r now).1.nextAction = NextAction.delete
    · rw [if_neg (not_not_intro hna)]
      by_cases hlen : (workloads ++ (pipelineNext r now).1.Workloads nodeID).length ≥ maxPageSize
      · rw [if_pos hlen]
        have hr : ((pipelineNext r now).1.Workloads nodeID).length ≤ M :=
          hM r (List.mem_cons_self r rest)
        simpa [List.length_append] using Nat.add_le_add hw hr
      · rw [if_neg hlen]
        exact ih _ (le_of_lt (by simpa [maxPageSize] using Nat.lt_of_not_le hlen))
          (fun r' hr' => hM r' (List.mem_cons_of_mem r hr'))
    · rw [if_pos hna]
      exact ih workloads hw (fun r' hr' => hM r' (List.mem_cons_of_mem r hr'))

/-- C3 (amended): the queue contributes at most `maxPageSize = 200` rows,
and the early return without scanning reservations requires more than
`maxPageSize` queue rows — impossible under the query limit, so the
handler always proceeds to scan the reservations; the reply is bounded by
`maxPageSize` plus the largest per-node workload count of a single
scanned reservation (it can therefore exceed 200). -/
theorem c3_workloads_page (now : Int) (nodeID : String) (queue : List Workload)
    (reservations : List Reservation) (M : Nat)
    (hM : ∀ r ∈ reservations, ((pipelineNext r now).1.Workloads nodeID).length ≤ M) :
    (queued queue maxPageSize).length ≤ maxPageSize ∧
      workloadsHandler now nodeID queue reservations =
        scanReservations now nodeID (queued queue maxPageSize) reservations ∧
      (workloadsHandler now nodeID queue reservations).length ≤ maxPageSize + M := by
  have hq : (queued queue maxPageSize).length ≤ maxPageSize := by
    simp only [queued]
    exact List.length_take_le maxPageSize queue
  have he : workloadsHandler now nodeID queue reservations =
      scanReservations now nodeID (queued queue maxPageSize) reservations := by
    rw [workloadsHandler]
    rw [if_neg (by simpa using Nat.not_lt_of_le hq)]
  refine ⟨hq, he, ?_⟩
  rw [he]
  exact scanReservations_length_le now nodeID M reservations _ hq hM

/-- A queue row for node `node1`. -/
def queueRow : Workload := { workloadId := "1-1", nodeId := "node1" }

/-- A deployed reservation with two workloads addressed to `node1`. -/
def twoWorkloadReservation : Reservation :=
  { baseReservation with
      nextAction := NextAction.deploy
      workloads := [{ workloadId := "9-1", nodeId := "node1" },
                    { workloadId := "9-2", nodeId := "node1" }] }

/-- The pipeline leaves `twoWorkloadReservation` alone at clock 0. -/
theorem pipelineNext_twoWorkloadReservation :
    pipelineNext twoWorkloadReservation 0 = (twoWorkloadReservation, false) := by
  have hss : stageStep twoWorkloadReservation = twoWorkloadReservation := rfl
  have e3 : stageLoop twoWorkloadReservation false = (twoWorkloadReservation, false) := by
    rw [stageLoop]
    simp [hss]
  rw [pipelineNext]
  rw [if_neg (by decide), if_neg (by decide), if_neg (by decide)]
  exact e3

set_option maxRecDepth 4000 in
/-- Counterexample to C3 as stated: with exactly 200 queue rows for the
node — the queue "reaching the limit" — the handler still scans the
reservations and replies with 202 entries, more than `maxPageSize`. -/
theorem c3_counterexample :
    (queued (List.replicate 200 queueRow) maxPageSize).length = maxPageSize ∧
      (workloadsHandler 0 "node1" (List.replicate 200 queueRow)
        [twoWorkloadReservation]).length = 202 := by
  have hmin : min maxPageSize 200 = 200 := by decide
  have hqd : queued (List.replicate 200 queueRow) maxPageSize =
      List.replicate 200 queueRow := by
    rw [queued, List.take_replicate, hmin]
  constructor
  · rw [hqd, List.length_replicate]
    rfl
  · rw [workloadsHandler, hqd]
    rw [if_neg (by rw [List.length_replicate]; decide)]
    rw [scanReservations]
    rw [pipelineNext_twoWorkloadReservation]
    decide

/-- Witness for C3 (amended) at a short queue and the two-workload
reservation. -/
theorem c3_workloads_page_witness :
    (∀ r ∈ [twoWorkloadReservation],
        ((pipelineNext r 0).1.Workloads "node1").length ≤ 2) ∧
      ((queued (List.replicate 5 queueRow) maxPageSize).length ≤ maxPageSize ∧
        workloadsHandler 0 "node1" (List.replicate 5 queueRow) [twoWorkloadReservation] =
          scanReservations 0 "node1" (queued (List.replicate 5 queueRow) maxPageSize)
            [twoWorkloadReservation] ∧
        (workloadsHandler 0 "node1" (List.replicate 5 queueRow)
          [twoWorkloadReservation]).length ≤ maxPageSize + 2) := by
  have hM : ∀ r ∈ [twoWorkloadReservation],
      ((pipelineNext r 0).1.Workloads "node1").length ≤ 2 := by
    intro r hr
    rw [List.mem_singleton] at hr
    subst hr
    rw [pipelineNext_twoWorkloadReservation]
    decide
  exact ⟨hM, c3_workloads_page 0 "node1" (List.replicate 5 queueRow) [twoWorkloadReservation] 2 hM⟩

/-!  Claim C9: `UserCreate` of the phonebook (in `client/directory.go`). -/

/-- A phonebook user. -/
structure User where
  id : Int
  name : String
  email : String
  pubkey : String
deriving DecidableEq, Repr

/-- The outcome of the `filter.Get` lookup by name inside `UserCreate`:
`err == nil` with a user, `mongo.ErrNoDocuments`, or any other error. -/
inductive LookupOutcome where
  | found (u : User)
  | errNoDocuments
  | errOther (e : String)
deriving DecidableEq, Repr

/-- The outcome of the `InsertOne` call inside `UserCreate`: success, a
write exception with duplicate-key code 11000, or any other error. -/
inductive InsertOutcome where
  | inserted
  | errDuplicateKey
  | errOther (e : String)
deriving DecidableEq, Repr

/-- What `UserCreate` returns. -/
inductive UserCreateOutcome where
  | created (u : User)
  | errEmptyName
  | errInvalidPubkey
  | errUserExists
  | errStore (e : String)
deriving DecidableEq, Repr

/-- `UserCreate` of `client/directory.go`: reject an empty name or an
invalid public key; look the name up — `err == nil` means the user
exists, an error other than `mongo.ErrNoDocuments` is returned as is
(the `errors.Is` guard), and only `ErrNoDocuments` proceeds to the
insertion, where a duplicate-key write error surfaces as
`ErrUserExists`.  `pubkeyValid` stands for `crypto.KeyFromHex`
succeeding and `newID` for `models.MustID`. -/
def userCreate (name email pubkey : String) (pubkeyValid : Bool)
    (lookupByName : LookupOutcome) (insertion : InsertOutcome) (newID : Int) :
    UserCreateOutcome :=
  if name.length == 0 then UserCreateOutcome.errEmptyName
  else if !pubkeyValid then UserCreateOutcome.errInvalidPubkey
  else
    match lookupByName with
    | LookupOutcome.found _ => UserCreateOutcome.errUserExists
    | LookupOutcome.errOther e => UserCreateOutcome.errStore e
    | LookupOutcome.errNoDocuments =>
      match insertion with
      | InsertOutcome.inserted =>
        UserCreateOutcome.created { id := newID, name := name, email := email, pubkey := pubkey }
      | InsertOutcome.errDuplicateKey => UserCreateOutcome.errUserExists
      | InsertOutcome.errOther e => UserCreateOutcome.errStore e

/-- C9 (amended): for a non-empty name and a valid key, `UserCreate`
returns `ErrUserExists` when the name lookup succeeds or when insertion
fails with the duplicate-key code; a lookup error other than
`NoDocuments` is returned as is, without falling through to insertion —
the `errors.Is` guard is effective; only a `NoDocuments` lookup reaches
insertion. -/
theorem c9_usercreate_guard (name email pubkey : String) (pubkeyValid : Bool)
    (lookupByName : LookupOutcome) (insertion : InsertOutcome) (newID : Int)
    (hname : ¬name.length = 0) (hvalid : pubkeyValid = true) :
    (∀ u, lookupByName = LookupOutcome.found u →
        userCreate name email pubkey pubkeyValid lookupByName insertion newID =
          UserCreateOutcome.errUserExists) ∧
      (∀ e, lookupByName = LookupOutcome.errOther e →
        userCreate name email pubkey pubkeyValid lookupByName insertion newID =
          UserCreateOutcome.errStore e) ∧
      (lookupByName = LookupOutcome.errNoDocuments →
        insertion = InsertOutcome.errDuplicateKey →
        userCreate name email pubkey pubkeyValid lookupByName insertion newID =
          UserCreateOutcome.errUserExists) ∧
      (lookupByName = LookupOutcome.errNoDocuments → insertion = InsertOutcome.inserted →
        userCreate name email pubkey pubkeyValid lookupByName insertion newID =
          UserCreateOutcome.created
            { id := newID, name := name, email := email, pubkey := pubkey }) := by
  refine ⟨?_, ?_, ?_, ?_⟩
  · intro u hl
    simp [userCreate, hname, hvalid, hl]
  · intro e hl
    simp [userCreate, hname, hvalid, hl]
  · intro hl hi
    simp [userCreate, hname, hvalid, hl, hi]
  · intro hl hi
    simp [userCreate, hname, hvalid, hl, hi]

/-- Witness for C9 (amended) at concrete store outcomes. -/
theorem c9_usercreate_guard_witness :
    ¬("alice".length = 0) ∧
      (∀ e, (LookupOutcome.errOther "timeout") = LookupOutcome.errOther e →
        userCreate "alice" "alice@mail" "aa" true (LookupOutcome.errOther "timeout")
            InsertOutcome.inserted 7 = UserCreateOutcome.errStore e) :=
  ⟨by decide,
    (c9_usercreate_guard "alice" "alice@mail" "aa" true (LookupOutcome.errOther "timeout")
      InsertOutcome.inserted 7 (by decide) rfl).2.1⟩

/-- Counterexample to C9 as stated: a name lookup failing with an error
other than `NoDocuments` does not fall through to insertion — even with
a successful insertion outcome available, `UserCreate` returns the
lookup error and creates nothing. -/
theorem c9_counterexample :
    userCreate "alice" "alice@mail" "aa" true (LookupOutcome.errOther "timeout")
        InsertOutcome.inserted 7 = UserCreateOutcome.errStore "timeout" ∧
      ¬userCreate "alice" "alice@mail" "aa" true (LookupOutcome.errOther "timeout")
          InsertOutcome.inserted 7 =
        UserCreateOutcome.created { id := 7, name := "alice", email := "alice@mail", pubkey := "aa" } := by
  constructor
  · decide
  · decide

/-!  Claim C10: `hashProof` of the directory node API. -/

/-- Lowercase hex digit, as produced by Go's `%x` formatting. -/
def hexDigitChar (n : Nat) : Char :=
  if n < 10 then Char.ofNat (48 + n) else Char.ofNat (87 + n)

/-- Two lowercase hex digits for one byte. -/
def hexByte (n : Nat) : String :=
  String.mk [hexDigitChar (n / 16), hexDigitChar (n % 16)]

/-- The md5 digest of the fresh, empty hash state.  `hashProof` calls
`h := md5.New()` and then `h.Sum(b)` without ever writing to `h`, and
`Sum(b)` appends the digest of the current (still empty) state to `b`,
so this constant is the only digest the function can produce. -/
def md5EmptyDigest : List Nat :=
  [0xd4, 0x1d, 0x8c, 0xd9, 0x8f, 0x00, 0xb2, 0x04,
   0xe9, 0x80, 0x09, 0x98, 0xec, 0xf8, 0x42, 0x7e]

/-- The kv slice `hashProof` builds: `make([]kv, len(p))` first creates
`len(p)` zero-valued entries, and the range loop then appends the real
entries after them. -/
def mkKvs {α : Type} (p : List (String × α)) : List (String × Option α) :=
  List.replicate p.length ("", none) ++ p.map fun kv => (kv.1, some kv.2)

/-- One insertion step of the sort on the kv slice, ordering by key. -/
def insertKv {α : Type} (x : String × Option α) :
    List (String × Option α) → List (String × Option α)
  | [] => [x]
  | y :: rest => if x.1 < y.1 then x :: y :: rest else y :: insertKv x rest

/-- The `sort.Slice(kvs, ...)` call of `hashProof`, ordering entries by
their key. -/
def sortKvs {α : Type} : List (String × Option α) → List (String × Option α)
  | [] => []
  | x :: rest => insertKv x (sortKvs rest)

/-- `json.Marshal` applied to the kv slice: the `kv` struct has only
unexported fields, so every entry encodes as the empty JSON object and
the serialization is determined by the number of entries alone. -/
def jsonMarshalKvs {α : Type} (kvs : List (String × Option α)) : String :=
  "[" ++ String.intercalate "," (kvs.map fun _ => "\x7b\x7d") ++ "]"

/-- The bytes of an ASCII string, as Go sees them. -/
def stringBytes (s : String) : List Nat :=
  s.toList.map Char.toNat

/-- `hashProof` of the directory node API: marshal the sorted kv slice,
append the digest of the untouched md5 state (`h.Sum(b)` appends to
`b`), and hex-encode the whole byte slice with `%x`. -/
def hashProof {α : Type} (p : List (String × α)) : String :=
  let b := jsonMarshalKvs (sortKvs (mkKvs p))
  let bh := stringBytes b ++ md5EmptyDigest
  String.join (bh.map hexByte)

/-- Insertion keeps the length of the kv slice. -/
theorem insertKv_length {α : Type} (x : String × Option α)
    (l : List (String × Option α)) : (insertKv x l).length = l.length + 1 := by
  induction l with
  | nil => rfl
  | cons y rest ih =>
    by_cases h : x.1 < y.1
    · simp [insertKv, h]
    · simp [insertKv, h, ih]

/-- Sorting keeps the length of the kv slice. -/
theorem sortKvs_length {α : Type} (l : List (String × Option α)) :
    (sortKvs l).length = l.length := by
  induction l with
  | nil => rfl
  | cons x rest ih => simp [sortKvs, insertKv_length, ih]

/-- The marshalled form depends only on the number of entries. -/
theorem jsonMarshalKvs_eq_of_length {α β : Type} (kvs : List (String × Option α))
    (kvs' : List (String × Option β)) (h : kvs.length = kvs'.length) :
    jsonMarshalKvs kvs = jsonMarshalKvs kvs' := by
  unfold jsonMarshalKvs
  rw [List.map_const', List.map_const', h]

/-- C10: `hashProof` ignores the content of its argument — any two maps
with the same number of keys hash to the very same string, so the stored
`HardwareHash` and `DiskHash` do not bind the proof data they are meant
to fingerprint. -/
theorem c10_hashProof_ignores_content {α β : Type} (p : List (String × α))
    (q : List (String × β)) (h : p.length = q.length) : hashProof p = hashProof q := by
  unfold hashProof
  have hlen : (sortKvs (mkKvs p)).length = (sortKvs (mkKvs q)).length := by
    rw [sortKvs_length, sortKvs_length]
    unfold mkKvs
    rw [List.length_append, List.length_append, List.length_replicate,
      List.length_replicate, List.length_map, List.length_map, h]
  rw [jsonMarshalKvs_eq_of_length (sortKvs (mkKvs p)) (sortKvs (mkKvs q)) hlen]

/-- Witness for C10: two maps with disjoint keys and different value
types produce the same proof hash. -/
theorem c10_hashProof_ignores_content_witness :
    ([("hardware", 1), ("tooling", 2)] : List (String × Nat)).length =
        ([("aa", "x"), ("bb", "y")] : List (String × String)).length ∧
      hashProof ([("hardware", 1), ("tooling", 2)] : List (String × Nat)) =
        hashProof ([("aa", "x"), ("bb", "y")] : List (String × String)) :=
  ⟨rfl, c10_hashProof_ignores_content [("hardware", 1), ("tooling", 2)]
    [("aa", "x"), ("bb", "y")] rfl⟩

/-!  Claim C4: the FreeTFT currency admission filter of `API.create`. -/

/-- The `freeTFT` currency code constant of `reservation.go`. -/
def freeTFT : String := "FreeTFT"

/-- One in-place removal `currencies = append(currencies[:i], currencies[i+1:]...)`
seen on the shared backing array: the elements at positions `i+1 .. L-1`
(where `L` is the current slice length) slide one slot down; the
positions from `L-1` on keep their old values. -/
def removeShift (backing : List String) (i L : Nat) : List String :=
  backing.take i ++ (backing.drop (i + 1)).take (L - 1 - i) ++ backing.drop (L - 1)

/-- The currency filter loop of `API.create`:
`for i, c := range currencies { if c == freeTFT { currencies = append(currencies[:i], currencies[i+1:]...) } }`.
The range clause iterates over the original slice header, so the loop
runs once per original element (the `fuel` argument counts the remaining
iterations) and reads `c` from the current backing array, while the
`currencies` variable shrinks to logical length `L`.  A removal at an
index with `i+1 > L` evaluates `currencies[i+1:]` beyond the slice
length — a runtime panic, modelled as `none`. -/
def currencyFilterLoop (backing : List String) (L : Nat) (i : Nat) :
    Nat → Option (List String)
  | 0 => some (backing.take L)
  | fuel + 1 =>
    if backing.getD i "" == freeTFT then
      if i + 1 ≤ L then currencyFilterLoop (removeShift backing i L) (L - 1) (i + 1) fuel
      else none
    else currencyFilterLoop backing L (i + 1) fuel

/-- The currency admission step of `API.create`: the declared currency
list is copied, and only when fewer free-to-use nodes than referenced
nodes plus gateways were counted is `FreeTFT` filtered out by the
mutating single-pass loop; the result is what gets passed to
`escrow.RegisterReservation`. -/
def currenciesForEscrow (freeNodes paidNodes : Nat) (currencies : List String) :
    Option (List String) :=
  if freeNodes < paidNodes then
    currencyFilterLoop currencies currencies.length 0 currencies.length
  else some currencies

/-- The claim's own description of the filter: remove `FreeTFT` in a
single left-to-right pass, where the element sliding into a removed slot
is not re-examined (so a second consecutive duplicate stays). -/
def singlePassRemove : List String → List String
  | [] => []
  | c :: rest =>
    if c == freeTFT then
      match rest with
      | [] => []
      | d :: rest' => d :: singlePassRemove rest'
    else c :: singlePassRemove rest

/-- Counterexample to C4 as stated: with one free node of two and the
declared currencies `[FreeTFT, TFT, FreeTFT]`, the filter loop reads the
stale trailing `FreeTFT` past the shrunken slice and panics
(`currencies[i+1:]` out of range) — no currency list reaches escrow at
all, while the claimed single pass would produce `[TFT]`. -/
theorem c4_counterexample :
    currenciesForEscrow 0 1 ["FreeTFT", "TFT", "FreeTFT"] = none ∧
      singlePassRemove ["FreeTFT", "TFT", "FreeTFT"] = ["TFT"] := by
  constructor
  · decide
  · decide

/-- Reading the backing array right after a prefix returns the next
element. -/
theorem getD_append_cons {α : Type} (l : List α) (x : α) (t : List α) (d : α) :
    (l ++ x :: t).getD l.length d = x := by
  induction l with
  | nil => rfl
  | cons a l ih => simpa using ih

/-- Once the loop index has passed the logical length, the remaining
iterations read only stale values; when none of them is `FreeTFT` the
loop finishes and returns the current slice. -/
theorem currencyFilterLoop_tail (stale : List String) :
    ∀ (done : List String) (L : Nat), (∀ x ∈ stale, ¬(x == freeTFT)) →
      currencyFilterLoop (done ++ stale) L done.length stale.length =
        some ((done ++ stale).take L) := by
  induction stale with
  | nil =>
    intro done L _
    rfl
  | cons x s ih =>
    intro done L h
    simp only [List.length_cons, currencyFilterLoop]
    rw [getD_append_cons]
    rw [if_neg (h x (List.mem_cons_self x s))]
    have := ih (done ++ [x]) L (fun y hy => h y (List.mem_cons_of_mem x hy))
    simpa using this

/-- The in-place removal of the element at the loop index, when the pass
is inside a segment of shape `done ++ (x :: mid ++ [v]) ++ stale` with
logical length reaching exactly up to `v`: the elements after `x` slide
down and the old last element `v` is left duplicated just past the new
logical length. -/
theorem removeShift_spec (done mid stale : List String) (x v : String) :
    removeShift (done ++ (x :: (mid ++ [v])) ++ stale) done.length
        (done.length + (mid.length + 2)) =
      done ++ (mid ++ [v]) ++ (v :: stale) := by
  unfold removeShift
  have h1 : (done ++ (x :: (mid ++ [v])) ++ stale).take done.length = done := by
    rw [List.append_assoc]
    exact List.take_left done _
  have h2 : done.length + (mid.length + 2) - 1 - done.length = mid.length + 1 := by
    omega
  have h3 : (done ++ (x :: (mid ++ [v])) ++ stale).drop (done.length + 1) =
      (mid ++ [v]) ++ stale := by
    have : done ++ (x :: (mid ++ [v])) ++ stale = (done ++ [x]) ++ ((mid ++ [v]) ++ stale) := by
      simp
    rw [this]
    have hlen : done.length + 1 = (done ++ [x]).length := by simp
    rw [hlen]
    exact List.drop_left _ _
  have h4 : ((mid ++ [v]) ++ stale).take (mid.length + 1) = mid ++ [v] := by
    have hlen : mid.length + 1 = (mid ++ [v]).length := by simp
    rw [hlen]
    exact List.take_left _ _
  have h5 : (done ++ (x :: (mid ++ [v])) ++ stale).drop (done.length + (mid.length + 2) - 1) =
      v :: stale := by
    have : done ++ (x :: (mid ++ [v])) ++ stale = (done ++ x :: mid) ++ ([v] ++ stale) := by
      simp
    rw [this]
    have hlen : done.length + (mid.length + 2) - 1 = (done ++ x :: mid).length := by
      simp
    rw [hlen]
    exact List.drop_left _ _
  rw [h1, h2, h3, h4, h5]

/-- When `FreeTFT` occurs only as the very last element, the loop skips
everything before it and the final iteration removes it without reading
any stale slot: the pass returns the list without its last element. -/
theorem currencyFilterLoop_lastFree (rest : List String) :
    ∀ done : List String, (∀ x ∈ rest, ¬(x == freeTFT)) →
      currencyFilterLoop (done ++ rest ++ [freeTFT]) (done.length + rest.length + 1)
          done.length (rest.length + 1) =
        some (done ++ rest) := by
  induction rest with
  | nil =>
    intro done _
    simp only [List.append_nil, List.length_nil, Nat.add_zero]
    rw [currencyFilterLoop]
    rw [getD_append_cons]
    rw [if_pos (show (freeTFT == freeTFT) = true from rfl)]
    rw [if_pos (le_refl (done.length + 1))]
    have hshift : removeShift (done ++ [freeTFT]) done.length (done.length + 1) =
        done ++ [freeTFT] := by
      unfold removeShift
      have h2 : done.length + 1 - 1 - done.length = 0 := by omega
      have h3 : done.length + 1 - 1 = done.length := by omega
      rw [h2, h3]
      simp [List.take_left, List.drop_left]
    rw [currencyFilterLoop]
    rw [hshift]
    have h4 : done.length + 1 - 1 = done.length := by omega
    rw [h4]
    rw [List.take_left done [freeTFT]]
  | cons x s ih =>
    intro done h
    have harr : done ++ (x :: s) ++ [freeTFT] = done ++ x :: (s ++ [freeTFT]) := by simp
    rw [harr]
    simp only [List.length_cons]
    rw [currencyFilterLoop]
    rw [getD_append_cons]
    rw [if_neg (h x (List.mem_cons_self x s))]
    have hrec := ih (done ++ [x]) (fun y hy => h y (List.mem_cons_of_mem x hy))
    have harr2 : done ++ [x] ++ s ++ [freeTFT] = done ++ x :: (s ++ [freeTFT]) := by simp
    rw [harr2] at hrec
    have hlen : (done ++ [x]).length = done.length + 1 := by simp
    rw [hlen] at hrec
    have hL : done.length + 1 + s.length + 1 = done.length + (s.length + 1) + 1 := by omega
    rw [hL] at hrec
    have hres : done ++ [x] ++ s = done ++ x :: s := by simp
    rw [hres] at hrec
    exact hrec

/-- Unfolding `singlePassRemove` on a non-`FreeTFT` head. -/
theorem singlePassRemove_cons_ne (c : String) (rest : List String)
    (hc : ¬(c == freeTFT)) : singlePassRemove (c :: rest) = c :: singlePassRemove rest := by
  cases rest <;> simp [singlePassRemove, hc]

/-- Unfolding `singlePassRemove` on a removed `FreeTFT` head: the next
element is kept unexamined. -/
theorem singlePassRemove_cons_free (c d : String) (rest : List String)
    (hc : c == freeTFT) : singlePassRemove (c :: d :: rest) = d :: singlePassRemove rest := by
  simp [singlePassRemove, hc]

/-- The single removing pass over a segment that ends in a
non-`FreeTFT` element `v`, with every stale slot holding `v`: the loop
computes exactly the claim's single left-to-right removal.  The
induction tracks the processed prefix `done`, the genuine remainder
`mid ++ [v]` and the stale tail. -/
theorem currencyFilterLoop_pass (n : Nat) :
    ∀ (mid done stale : List String) (v : String), mid.length = n →
      ¬(v == freeTFT) → (∀ x ∈ stale, x = v) →
      currencyFilterLoop (done ++ (mid ++ [v]) ++ stale)
          (done.length + (mid.length + 1)) done.length (stale.length + mid.length + 1) =
        some (done ++ singlePassRemove (mid ++ [v])) := by
  induction n using Nat.strong_induction_on with
  | _ n ih =>
    intro mid done stale v hn hv hstale
    have hstale' : ∀ x ∈ stale, ¬(x == freeTFT) := fun y hy => by
      rw [hstale y hy]
      exact hv
    cases mid with
    | nil =>
      simp only [List.nil_append, List.length_nil, Nat.add_zero, Nat.zero_add]
      have harr : done ++ [v] ++ stale = done ++ v :: stale := by simp
      rw [harr]
      rw [currencyFilterLoop]
      rw [getD_append_cons]
      rw [if_neg hv]
      have htail := currencyFilterLoop_tail stale (done ++ [v]) (done.length + 1) hstale'
      have hsp : singlePassRemove [v] = [v] := by
        simp [singlePassRemove, hv]
      rw [hsp]
      have htake : ((done ++ [v]) ++ stale).take (done.length + 1) = done ++ [v] := by
        have hlen : done.length + 1 = (done ++ [v]).length := by simp
        rw [hlen]
        exact List.take_left _ _
      rw [htake] at htail
      have harr2 : (done ++ [v]) ++ stale = done ++ v :: stale := by simp
      rw [harr2] at htail
      have hlen2 : (done ++ [v]).length = done.length + 1 := by simp
      rw [hlen2] at htail
      exact htail
    | cons c mid' =>
      by_cases hc : c == freeTFT
      · cases mid' with
        | nil =>
          simp only [List.cons_append, List.nil_append, List.length_cons, List.length_nil,
            Nat.zero_add]
          have harr : done ++ c :: [v] ++ stale = done ++ c :: ([] ++ [v] ++ stale) := by simp
          rw [harr]
          rw [currencyFilterLoop]
          rw [getD_append_cons]
          rw [if_pos hc]
          rw [if_pos (by omega : done.length + 1 ≤ done.length + (1 + 1))]
          have hshift := removeShift_spec done [] stale c v
          have harr3 : done ++ c :: ([] ++ [v] ++ stale) = done ++ (c :: ([] ++ [v])) ++ stale := by
            simp
          rw [harr3]
          have hL0 : done.length + (1 + 1) =
              done.length + (([] : List String).length + 2) := by simp
          rw [hL0]
          rw [hshift]
          have hL : done.length + (([] : List String).length + 2) - 1 = done.length + 1 := by
            simp only [List.length_nil, Nat.zero_add]
            omega
          rw [hL]
          have htail := currencyFilterLoop_tail (v :: stale) (done ++ [v]) (done.length + 1)
            (fun y hy => by
              rcases List.mem_cons.mp hy with h | h
              · rw [h]; exact hv
              · exact hstale' y h)
          have htake : ((done ++ [v]) ++ (v :: stale)).take (done.length + 1) = done ++ [v] := by
            have hlen : done.length + 1 = (done ++ [v]).length := by simp
            rw [hlen]
            exact List.take_left _ _
          rw [htake] at htail
          have hlen2 : (done ++ [v]).length = done.length + 1 := by simp
          rw [hlen2] at htail
          have hlen3 : (v :: stale).length = stale.length + 1 := by simp
          rw [hlen3] at htail
          have hsp : singlePassRemove (c :: [v]) = [v] := by
            rw [singlePassRemove_cons_free c v [] hc]
            rfl
          rw [hsp]
          have harr4 : done ++ ([] ++ [v]) ++ (v :: stale) = (done ++ [v]) ++ (v :: stale) := by
            simp
          rw [harr4]
          exact htail
        | cons d mid'' =>
          simp only [List.cons_append, List.length_cons]
          have harr : done ++ c :: d :: (mid'' ++ [v]) ++ stale =
              done ++ c :: (d :: (mid'' ++ [v]) ++ stale) := by simp
          rw [harr]
          rw [currencyFilterLoop]
          rw [getD_append_cons]
          rw [if_pos hc]
          rw [if_pos (by omega : done.length + 1 ≤ done.length + (mid''.length + 1 + 1 + 1))]
          have hshift := removeShift_spec done (d :: mid'') stale c v
          simp only [List.length_cons] at hshift
          have harr3 : done ++ c :: (d :: (mid'' ++ [v]) ++ stale) =
              done ++ (c :: ((d :: mid'') ++ [v])) ++ stale := by simp
          rw [harr3]
          have hLeq : done.length + (mid''.length + 1 + 1 + 1) =
              done.length + (mid''.length + 1 + 2) := by omega
          rw [hLeq]
          rw [hshift]
          have hn' : mid''.length + 2 = n := by simpa using hn
          have hrec := ih mid''.length (by omega) mid'' (done ++ [d]) (v :: stale) v rfl hv
            (fun y hy => by
              rcases List.mem_cons.mp hy with h | h
              · exact h
              · exact hstale y h)
          have harr5 : (done ++ [d]) ++ (mid'' ++ [v]) ++ (v :: stale) =
              done ++ ((d :: mid'') ++ [v]) ++ (v :: stale) := by simp
          rw [harr5] at hrec
          have hlen5 : (done ++ [d]).length = done.length + 1 := by simp
          rw [hlen5] at hrec
          have hL5 : done.length + 1 + (mid''.length + 1) =
              done.length + (mid''.length + 1 + 2) - 1 := by omega
          rw [hL5] at hrec
          have hf5 : (v :: stale).length + mid''.length + 1 =
              stale.length + (mid''.length + 1 + 1) := by
            simp only [List.length_cons]
            omega
          rw [hf5] at hrec
          have hsp : singlePassRemove (c :: (d :: (mid'' ++ [v]))) =
              d :: singlePassRemove (mid'' ++ [v]) :=
            singlePassRemove_cons_free c d _ hc
          have harr6 : done ++ singlePassRemove (c :: d :: (mid'' ++ [v])) =
              (done ++ [d]) ++ singlePassRemove (mid'' ++ [v]) := by
            rw [hsp]
            simp
          rw [harr6]
          exact hrec
      · simp only [List.cons_append, List.length_cons]
        have harr : done ++ c :: (mid' ++ [v]) ++ stale =
            done ++ c :: (mid' ++ [v] ++ stale) := by simp
        rw [harr]
        rw [currencyFilterLoop]
        rw [getD_append_cons]
        rw [if_neg hc]
        have hn' : mid'.length + 1 = n := by simpa using hn
        have hrec := ih mid'.length (by omega) mid' (done ++ [c]) stale v rfl hv hstale
        have harr5 : (done ++ [c]) ++ (mid' ++ [v]) ++ stale =
            done ++ c :: (mid' ++ [v] ++ stale) := by simp
        rw [harr5] at hrec
        have hlen5 : (done ++ [c]).length = done.length + 1 := by simp
        rw [hlen5] at hrec
        have hL5 : done.length + 1 + (mid'.length + 1) = done.length + (mid'.length + 1 + 1) := by
          omega
        rw [hL5] at hrec
        have hsp : done ++ singlePassRemove (c :: (mid' ++ [v])) =
            (done ++ [c]) ++ singlePassRemove (mid' ++ [v]) := by
          rw [singlePassRemove_cons_ne c _ hc]
          simp
        rw [hsp]
        exact hrec

/-- `singlePassRemove` drops a final `FreeTFT` when nothing before it is
`FreeTFT`. -/
theorem singlePassRemove_append_lastFree (l : List String)
    (h : ∀ x ∈ l, ¬(x == freeTFT)) : singlePassRemove (l ++ [freeTFT]) = l := by
  induction l with
  | nil => decide
  | cons x l ih =>
    rw [List.cons_append, singlePassRemove_cons_ne x _ (h x (List.mem_cons_self x l))]
    rw [ih (fun y hy => h y (List.mem_cons_of_mem x hy))]

/-- The currency filter loop of `API.create`, on any list that does not
panic it — that is, any list that does not both contain `FreeTFT` twice
and end in `FreeTFT` — computes exactly the claim's single left-to-right
removal. -/
theorem currencyFilterLoop_eq_singlePass (currencies : List String)
    (h : 2 ≤ currencies.count freeTFT → ¬currencies.getLast? = some freeTFT) :
    currencyFilterLoop currencies currencies.length 0 currencies.length =
      some (singlePassRemove currencies) := by
  cases hlast : currencies.getLast? with
  | none =>
    have hnil : currencies = [] := by
      cases hcur : currencies with
      | nil => rfl
      | cons a l =>
        rw [hcur] at hlast
        simp [List.getLast?_eq_none_iff] at hlast
    subst hnil
    rfl
  | some v =>
    have hdecomp : currencies.dropLast ++ [v] = currencies :=
      List.dropLast_append_getLast? v hlast
    have hlen : currencies.length = currencies.dropLast.length + 1 := by
      conv_lhs => rw [← hdecomp]
      simp
    by_cases hv : v == freeTFT
    · have hveq : v = freeTFT := eq_of_beq hv
      subst hveq
      have hcount : currencies.count freeTFT ≤ 1 := by
        by_contra hgt
        exact h (by omega) hlast
      have hinit : ∀ x ∈ currencies.dropLast, ¬(x == freeTFT) := by
        intro x hx hbeq
        have hxeq : x = freeTFT := eq_of_beq hbeq
        subst hxeq
        have hsplit : currencies.count freeTFT =
            currencies.dropLast.count freeTFT + 1 := by
          conv_lhs => rw [← hdecomp]
          rw [List.count_append]
          simp
        have hzero : currencies.dropLast.count freeTFT = 0 := by omega
        exact List.count_eq_zero.mp hzero hx
      have hmain := currencyFilterLoop_lastFree currencies.dropLast [] hinit
      simp only [List.nil_append, List.length_nil, Nat.zero_add] at hmain
      rw [hdecomp] at hmain
      have hsp : singlePassRemove currencies = currencies.dropLast := by
        conv_lhs => rw [← hdecomp]
        exact singlePassRemove_append_lastFree currencies.dropLast hinit
      rw [hsp, hlen]
      exact hmain
    · have hmain := currencyFilterLoop_pass currencies.dropLast.length
        currencies.dropLast [] [] v rfl hv (by intro x hx; cases hx)
      simp only [List.nil_append, List.append_nil, List.length_nil, Nat.zero_add] at hmain
      rw [hdecomp] at hmain
      rw [hlen]
      exact hmain

/-- C4 (amended): when every referenced node is free to use the declared
currency list is forwarded to escrow unchanged, and otherwise — unless
the declared list contains `FreeTFT` at least twice and also ends in
`FreeTFT`, in which case the mutating filter loop reads a stale slot and
panics, so no list reaches escrow — the list passed to escrow is the
declared list with `FreeTFT` removed by the single left-to-right pass
(one which leaves a second consecutive duplicate in place and forwards
every other code unchanged). -/
theorem c4_currency_admission (freeNodes paidNodes : Nat) (currencies : List String)
    (h : 2 ≤ currencies.count freeTFT → ¬currencies.getLast? = some freeTFT) :
    currenciesForEscrow freeNodes paidNodes currencies =
      some (if freeNodes < paidNodes then singlePassRemove currencies else currencies) := by
  by_cases hfp : freeNodes < paidNodes
  · rw [currenciesForEscrow, if_pos hfp, if_pos hfp]
    exact currencyFilterLoop_eq_singlePass currencies h
  · rw [currenciesForEscrow, if_neg hfp, if_neg hfp]

/-- Witness for C4 (amended): one free node of two, declared currencies
`[FreeTFT, FreeTFT, TFT]`; the escrow list keeps the second consecutive
`FreeTFT` in place. -/
theorem c4_currency_admission_witness :
    (2 ≤ (["FreeTFT", "FreeTFT", "TFT"] : List String).count freeTFT →
        ¬(["FreeTFT", "FreeTFT", "TFT"] : List String).getLast? = some freeTFT) ∧
      currenciesForEscrow 1 2 ["FreeTFT", "FreeTFT", "TFT"] =
        some (if 1 < 2 then singlePassRemove ["FreeTFT", "FreeTFT", "TFT"]
          else ["FreeTFT", "FreeTFT", "TFT"]) ∧
      singlePassRemove ["FreeTFT", "FreeTFT", "TFT"] = ["FreeTFT", "TFT"] :=
  ⟨by decide, c4_currency_admission 1 2 ["FreeTFT", "FreeTFT", "TFT"] (by decide), by decide⟩
